import Mathlib

/-
Verification of the Stepping Stones live quiz frontend.

Shallow embedding of the game logic found in:
  frontend/src/pages/Login.jsx        (GamePage: grading, dice, timers, finish)
  frontend/src/components/Leaderboard.jsx
  frontend/src/components/QuestionDisplay.jsx
  frontend/src/components/Timer.jsx
  frontend/src/hooks/useWebSocket.js

Client-side randomness (Math.random()) is made explicit as a rational draw
q with 0 <= q < 1.  React state updates are modelled as explicit state
passing; setInterval ticks become explicit step functions iterated with
Function.iterate.
-/

namespace SteppingStones

/-- Question difficulty tiers as they appear in question objects
(QuestionDisplay.jsx, grading buttons in Login.jsx). -/
inductive Difficulty
  | Easy
  | Medium
  | Hard
  | Insane
deriving DecidableEq

/-- Difficulty band selected by a dice roll, as displayed by handleRollDice
in Login.jsx: the string Easy/Medium or the string Hard/Insane. -/
inductive Band
  | EasyMedium
  | HardInsane
deriving DecidableEq

/-- Connection role of a client (GamePage prop role in Login.jsx). -/
inductive Role
  | facilitator
  | player
deriving DecidableEq

/-- Base point value used by the grading buttons in Login.jsx
(lines 1036, 1045, 1057, 1066, 1121, 1130) and by the points badge in
QuestionDisplay.jsx line 47, all of which inline the same expression:
difficulty === Easy or difficulty === Medium gives 2, otherwise 3. -/
def basePoints (d : Difficulty) : Nat :=
  if d = Difficulty.Easy ∨ d = Difficulty.Medium then 2 else 3

/-- The three grading actions offered to the facilitator for an answer that
was not auto-graded (Login.jsx lines 1052-1079): Correct, Correct with
bonus, Incorrect.  The same three shapes appear in the detailed grading
modal (lines 1117-1141). -/
inductive GradeAction
  | correct
  | correctBonus
  | incorrect
deriving DecidableEq

/-- Arguments (is_correct, points_awarded) passed to handleGradeAnswer by
each grading button in Login.jsx: Correct passes the base points for the
difficulty of the current question, the bonus button passes base points
plus one, Incorrect passes zero. -/
def gradeCall (d : Difficulty) : GradeAction → Bool × Nat
  | GradeAction.correct => (true, basePoints d)
  | GradeAction.correctBonus => (true, basePoints d + 1)
  | GradeAction.incorrect => (false, 0)

/-- Die value computed by handleRollDice in Login.jsx line 606:
Math.floor(Math.random() * 6) + 1, with the random draw q in [0,1) made
explicit as a rational argument. -/
def rollDie (q : ℚ) : ℤ :=
  ⌊q * 6⌋ + 1

/-- Difficulty range derived from the final roll in Login.jsx line 615:
finalRoll <= 3 gives Easy/Medium, otherwise Hard/Insane. -/
def difficultyRange (roll : ℤ) : Band :=
  if roll ≤ 3 then Band.EasyMedium else Band.HardInsane

/-- Payload of the dice_rolled WebSocket message as built in Login.jsx
lines 618-626. -/
structure DiceRolledMsg where
  team_id : Nat
  team_name : String
  roll : ℤ
  difficulty_range : Band
deriving DecidableEq

/-- The dice_rolled message that the rolling client itself builds and
broadcasts in handleRollDice (Login.jsx lines 600-626): the client draws
its own randomness q, computes finalRoll locally and sends it together
with the derived difficulty range.  No server-generated value is
involved. -/
def handleRollDiceMsg (teamId : Nat) (teamName : String) (q : ℚ) : DiceRolledMsg :=
  { team_id := teamId
    team_name := teamName
    roll := rollDie q
    difficulty_range := difficultyRange (rollDie q) }

/-- Team record as used by Leaderboard.jsx, the leaderboard_update handler
in useWebSocket.js and handleFinishGame in Login.jsx.  The score or 0
coalescing of the JavaScript is reflected by score being a total Nat. -/
structure Team where
  id : Nat
  team_name : String
  score : Nat
  position : Nat
deriving DecidableEq, Inhabited

/-- Indexed score access sortedTeams[i]?.score or 0 used throughout
Leaderboard.jsx: out-of-range access yields 0. -/
def scoreAt (l : List Team) (i : Nat) : Nat :=
  ((l.get? i).map Team.score).getD 0

/-- Descending sort by score, modelling the stable JavaScript
Array.prototype.sort with comparator (b.score or 0) - (a.score or 0)
(Leaderboard.jsx line 11, Login.jsx line 424). -/
def sortTeamsDesc (ts : List Team) : List Team :=
  ts.mergeSort (fun a b => decide (b.score ≤ a.score))

/-- Rank computation getTeamRank of Leaderboard.jsx lines 14-28, on the
descending-sorted team list: index 0 has rank 1; a team with the same
score as its predecessor takes the rank of the first team with that score
(the for loop over i < index, modelled by find? over List.range); any
other team has rank index + 1. -/
def getTeamRank (sorted : List Team) (index : Nat) : Nat :=
  if index = 0 then 1
  else if scoreAt sorted index = scoreAt sorted (index - 1) then
    match (List.range index).find? (fun i => scoreAt sorted i == scoreAt sorted index) with
    | some i => i + 1
    | none => index + 1
  else index + 1

/-- Maximum score over a list of teams (zero for the empty list); the
specification-side notion the winners list is compared against. -/
def maxScoreOf (ts : List Team) : Nat :=
  (ts.map Team.score).foldr max 0

/-- Winners computation of handleFinishGame in Login.jsx lines 423-428:
sort the teams by score descending, take the score of the first sorted
team (or 0), and keep every team whose score equals that highest score. -/
def handleFinishGameWinners (teams : List Team) : List Team :=
  let sortedTeams := sortTeamsDesc teams
  let highestScore := ((sortedTeams.head?).map Team.score).getD 0
  sortedTeams.filter (fun t => t.score == highestScore)

/-- Session status of a game session (lobby, in_progress, completed). -/
inductive SessionStatus
  | lobby
  | in_progress
  | completed
deriving DecidableEq

/-- State relevant to the start-game action: session status, configured
team count (gameSession.num_teams) and the number of joined teams
(teams.length). -/
structure StartGameSession where
  status : SessionStatus
  numTeams : Nat
  joinedTeams : Nat
deriving DecidableEq

/-- Client-side guard of handleStartGame in Login.jsx lines 561-564: the
request is aborted (early return with an error toast) exactly when
teams.length < gameSession.num_teams. -/
def clientStartGuardRejects (teamsLen numTeams : Nat) : Bool :=
  decide (teamsLen < numTeams)

/-- Modelled from the spec: the backend start-game handler is not under
src (only its frontend caller gameAPI.startGame is).  Spec section 4.1:
start() is allowed only when joined team count equals the configured team
count; it moves Lobby to in_progress and emits game_started.  The result
is (new session state, accepted, game_started emitted). -/
def serverStartGame (s : StartGameSession) : StartGameSession × Bool × Bool :=
  if s.joinedTeams = s.numTeams ∧ s.status = SessionStatus.lobby then
    ({ s with status := SessionStatus.in_progress }, true, true)
  else (s, false, false)

/-- Complete start-game action: the client guard of handleStartGame runs
first; if it does not reject, the request reaches the server start
handler. -/
def startGameAction (s : StartGameSession) : StartGameSession × Bool × Bool :=
  if clientStartGuardRejects s.joinedTeams s.numTeams then (s, false, false)
  else serverStartGame s

/-- Client state touched by the dice-roll countdown of GamePage
(Login.jsx): the diceTimer value (none when no dice timer is displayed),
whether the interval scheduled by startDiceTimer is still pending, and the
showDiceSkipModal flag. -/
structure DiceTimerState where
  diceTimer : Option Nat
  intervalActive : Bool
  showDiceSkipModal : Bool
deriving DecidableEq

/-- Effect of startDiceTimer (Login.jsx lines 237-257): set the countdown
to 30 and (re)arm the one-second interval.  The skip modal flag is not
touched here. -/
def startDiceTimer (s : DiceTimerState) : DiceTimerState :=
  { s with diceTimer := some 30, intervalActive := true }

/-- One firing of the interval callback installed by startDiceTimer
(Login.jsx lines 243-256): when the previous value is at most 1 the
interval is cleared, the skip modal is shown if and only if the client
role is facilitator, and the countdown becomes 0; otherwise the countdown
decreases by one.  A cleared interval never fires again. -/
def diceTimerTick (role : Role) (s : DiceTimerState) : DiceTimerState :=
  if s.intervalActive then
    match s.diceTimer with
    | some prev =>
      if prev ≤ 1 then
        { diceTimer := some 0
          intervalActive := false
          showDiceSkipModal := s.showDiceSkipModal || (role == Role.facilitator) }
      else { s with diceTimer := some (prev - 1) }
    | none => s
  else s

/-- State of the answer Timer component (Timer.jsx) wired into GamePage:
remaining seconds, the stopped prop (answerSubmitted in Login.jsx), whether
an interval is pending after the last effect run, and how many times
onTimeUp has fired. -/
structure AnswerTimerState where
  timeLeft : Nat
  stopped : Bool
  intervalActive : Bool
  fires : Nat
deriving DecidableEq

/-- One run of the Timer effect (Timer.jsx lines 11-32) after the previous
interval was cleaned up: if stopped, do nothing; if timeLeft reached 0,
call onTimeUp and do not schedule an interval; otherwise schedule the
interval.  In GamePage onTimeUp is handleTimeUp (Login.jsx lines 390-394),
which sets answerSubmitted, that is, the stopped prop of the Timer; the
model therefore sets stopped when onTimeUp fires. -/
def runTimerEffect (s : AnswerTimerState) : AnswerTimerState :=
  if s.stopped then { s with intervalActive := false }
  else if s.timeLeft = 0 then
    { s with fires := s.fires + 1, stopped := true, intervalActive := false }
  else { s with intervalActive := true }

/-- One firing of the Timer interval callback (Timer.jsx lines 20-29): at
one second or less the interval clears itself, onTimeUp fires (setting the
stopped prop through handleTimeUp) and the countdown becomes 0; otherwise
the countdown decreases by one. -/
def answerTimerTick (s : AnswerTimerState) : AnswerTimerState :=
  if s.intervalActive then
    if s.timeLeft ≤ 1 then
      { s with timeLeft := 0, fires := s.fires + 1, stopped := true, intervalActive := false }
    else { s with timeLeft := s.timeLeft - 1 }
  else s

/-- Execution of the Timer component mounted with the given duration and
stopped prop: the effect runs on mount, then each elapsed second is a tick
followed by the re-run of the effect triggered by the state change. -/
def timerRun (duration : Nat) (stopped0 : Bool) (n : Nat) : AnswerTimerState :=
  (fun s => runTimerEffect (answerTimerTick s))^[n]
    (runTimerEffect { timeLeft := duration, stopped := stopped0, intervalActive := false, fires := 0 })

/-- Entry of the leaderboard list carried by a leaderboard_update event
(useWebSocket.js lines 131-149). -/
structure LBEntry where
  id : Nat
  score : Nat
  position : Nat
deriving DecidableEq

/-- The leaderboard_update case of handleMessage in useWebSocket.js lines
131-149: when the update list is non-empty, every team whose id is found
in the list gets that entry's score and position, all other teams are
returned as-is; an empty list leaves the teams untouched. -/
def applyLeaderboardUpdate (lb : List LBEntry) (teams : List Team) : List Team :=
  if lb.isEmpty then teams
  else teams.map (fun team =>
    match lb.find? (fun l => l.id == team.id) with
    | some updatedTeam =>
      { team with score := updatedTeam.score, position := updatedTeam.position }
    | none => team)

/-- Payload of an answer_submitted_details event as kept in the
submittedAnswers list (Login.jsx lines 351-361). -/
structure AnswerData where
  answer_id : Nat
  team_name : String
  submitted_answer : String
deriving DecidableEq

/-- Handler handleAnswerSubmittedDetails of Login.jsx lines 351-361: only
a facilitator client updates the list, and an incoming answer is appended
only when no entry with the same answer_id is already present. -/
def handleAnswerSubmittedDetails (role : Role) (answerData : AnswerData)
    (prev : List AnswerData) : List AnswerData :=
  if role = Role.facilitator then
    if prev.any (fun a => a.answer_id == answerData.answer_id) then prev
    else prev ++ [answerData]
  else prev

/-- Pending-answers list obtained by folding a stream of
answer_submitted_details events through the handler, starting from the
initial empty submittedAnswers state. -/
def processDetailsEvents (role : Role) (events : List AnswerData) : List AnswerData :=
  events.foldl (fun acc e => handleAnswerSubmittedDetails role e acc) []

/-! Helper lemmas -/

theorem rollDie_ge_one (q : ℚ) (h0 : 0 ≤ q) : 1 ≤ rollDie q := by
  have h : (0 : ℤ) ≤ ⌊q * 6⌋ := Int.floor_nonneg.mpr (mul_nonneg h0 (by norm_num))
  unfold rollDie
  omega

theorem rollDie_le_six (q : ℚ) (h1 : q < 1) : rollDie q ≤ 6 := by
  have h : ⌊q * 6⌋ < (6 : ℤ) := Int.floor_lt.mpr (by push_cast; linarith)
  unfold rollDie
  omega

/-! Claim theorems -/

/-- Claim C1: for every graded answer, a correct verdict awards 2 points when
the difficulty is Easy or Medium and 3 points when it is Hard or Insane, the
facilitator bonus adds exactly one point on top of that amount, and an
incorrect verdict awards 0 points. -/
theorem grading_awards (d : Difficulty) (a : GradeAction) :
    ((d = Difficulty.Easy ∨ d = Difficulty.Medium) → basePoints d = 2)
    ∧ ((d = Difficulty.Hard ∨ d = Difficulty.Insane) → basePoints d = 3)
    ∧ ((gradeCall d a).1 = true →
        (gradeCall d a).2 = basePoints d ∨ (gradeCall d a).2 = basePoints d + 1)
    ∧ (gradeCall d GradeAction.correctBonus).2 = (gradeCall d GradeAction.correct).2 + 1
    ∧ ((gradeCall d a).1 = false → (gradeCall d a).2 = 0) := by
  cases d <;> cases a <;> simp [basePoints, gradeCall]

/-- Witness for C1 at the Easy difficulty and the bonus grading action. -/
theorem grading_awards_witness :
    basePoints Difficulty.Easy = 2
    ∧ basePoints Difficulty.Hard = 3
    ∧ ((gradeCall Difficulty.Easy GradeAction.correctBonus).2 = basePoints Difficulty.Easy
        ∨ (gradeCall Difficulty.Easy GradeAction.correctBonus).2 = basePoints Difficulty.Easy + 1) :=
  ⟨(grading_awards Difficulty.Easy GradeAction.correctBonus).1 (Or.inl rfl),
   (grading_awards Difficulty.Hard GradeAction.correctBonus).2.1 (Or.inl rfl),
   (grading_awards Difficulty.Easy GradeAction.correctBonus).2.2.1 rfl⟩

/-- Claim C2: every dice roll value lies in the interval from 1 to 6, the
difficulty range is Easy/Medium exactly for the values 1, 2 and 3, and
Hard/Insane exactly for the values 4, 5 and 6. -/
theorem dice_roll_range_band (q : ℚ) (h0 : 0 ≤ q) (h1 : q < 1) :
    (1 ≤ rollDie q ∧ rollDie q ≤ 6)
    ∧ (difficultyRange (rollDie q) = Band.EasyMedium ↔
        rollDie q = 1 ∨ rollDie q = 2 ∨ rollDie q = 3)
    ∧ (difficultyRange (rollDie q) = Band.HardInsane ↔
        rollDie q = 4 ∨ rollDie q = 5 ∨ rollDie q = 6) := by
  have hge := rollDie_ge_one q h0
  have hle := rollDie_le_six q h1
  refine ⟨⟨hge, hle⟩, ?_, ?_⟩ <;>
    · unfold difficultyRange
      split <;> rename_i h <;> simp_all <;> omega

/-- Witness for C2 at the random draw one half. -/
theorem dice_roll_range_band_witness :
    0 ≤ (1/2 : ℚ) ∧ (1/2 : ℚ) < 1
    ∧ ((1 ≤ rollDie (1/2) ∧ rollDie (1/2) ≤ 6)
      ∧ (difficultyRange (rollDie (1/2)) = Band.EasyMedium ↔
          rollDie (1/2) = 1 ∨ rollDie (1/2) = 2 ∨ rollDie (1/2) = 3)
      ∧ (difficultyRange (rollDie (1/2)) = Band.HardInsane ↔
          rollDie (1/2) = 4 ∨ rollDie (1/2) = 5 ∨ rollDie (1/2) = 6)) :=
  ⟨by norm_num, by norm_num, dice_roll_range_band (1/2) (by norm_num) (by norm_num)⟩

/-- Counterexample to claim C3 as stated: the die value carried by the
dice_rolled message is not independent of client-side randomness; two
different local random draws of the rolling client produce two different
broadcast values, so the value all participants see is determined by the
client, not by the server. -/
theorem dice_value_client_dependent :
    (handleRollDiceMsg 1 "Red" 0).roll ≠ (handleRollDiceMsg 1 "Red" (5/6)).roll := by
  simp only [handleRollDiceMsg, rollDie]
  norm_num

/-- Claim C3 (amended): the die value carried by a dice_rolled event is
computed by the rolling client itself from its local random draw and is
broadcast as-is; the message's roll field equals the locally computed value
and its difficulty range is derived from that same value, with the value
lying between 1 and 6 for every valid draw. -/
theorem dice_value_is_client_computed (teamId : Nat) (teamName : String) (q : ℚ)
    (h0 : 0 ≤ q) (h1 : q < 1) :
    (handleRollDiceMsg teamId teamName q).roll = rollDie q
    ∧ 1 ≤ (handleRollDiceMsg teamId teamName q).roll
    ∧ (handleRollDiceMsg teamId teamName q).roll ≤ 6
    ∧ (handleRollDiceMsg teamId teamName q).difficulty_range = difficultyRange (rollDie q) :=
  ⟨rfl, rollDie_ge_one q h0, rollDie_le_six q h1, rfl⟩

/-- Witness for the amended C3 at the random draw zero. -/
theorem dice_value_is_client_computed_witness :
    0 ≤ (0 : ℚ) ∧ (0 : ℚ) < 1
    ∧ ((handleRollDiceMsg 1 "Red" 0).roll = rollDie 0
      ∧ 1 ≤ (handleRollDiceMsg 1 "Red" 0).roll
      ∧ (handleRollDiceMsg 1 "Red" 0).roll ≤ 6
      ∧ (handleRollDiceMsg 1 "Red" 0).difficulty_range = difficultyRange (rollDie 0)) :=
  ⟨le_refl 0, by norm_num, dice_value_is_client_computed 1 "Red" 0 (le_refl 0) (by norm_num)⟩

/-- Claim C6: the start-game action succeeds only when the number of joined
teams equals the configured team count; whenever the counts differ the
action is rejected, every rejection leaves the session unchanged and emits
nothing, and on success the session moves to in_progress and game_started
is emitted. -/
theorem start_game_only_when_full (s : StartGameSession) :
    ((startGameAction s).2.1 = true →
      s.joinedTeams = s.numTeams
      ∧ ((startGameAction s).1).status = SessionStatus.in_progress
      ∧ (startGameAction s).2.2 = true)
    ∧ (s.joinedTeams ≠ s.numTeams → (startGameAction s).2.1 = false)
    ∧ ((startGameAction s).2.1 = false →
      (startGameAction s).1 = s ∧ (startGameAction s).2.2 = false) := by
  unfold startGameAction clientStartGuardRejects serverStartGame
  by_cases hlt : s.joinedTeams < s.numTeams
  · simp [hlt]
  · by_cases hcond : s.joinedTeams = s.numTeams ∧ s.status = SessionStatus.lobby
    · simp [hlt, hcond]
    · simp [hlt, hcond]

/-- Witness for C6: a lobby with all three configured teams joined starts
and moves to in_progress, while a lobby with one team missing is
rejected. -/
theorem start_game_only_when_full_witness :
    ((startGameAction ⟨SessionStatus.lobby, 3, 3⟩).1).status = SessionStatus.in_progress
    ∧ (startGameAction ⟨SessionStatus.lobby, 3, 2⟩).2.1 = false :=
  ⟨((start_game_only_when_full ⟨SessionStatus.lobby, 3, 3⟩).1 (by decide)).2.1,
   (start_game_only_when_full ⟨SessionStatus.lobby, 3, 2⟩).2.1 (by decide)⟩

/-- Handler for answer_submitted_details never changes the list on a player
client. -/
theorem handleDetails_player (e : AnswerData) (prev : List AnswerData) :
    handleAnswerSubmittedDetails Role.player e prev = prev := by
  simp [handleAnswerSubmittedDetails]

/-- Folding any event stream through the handler on a player client keeps
the accumulator. -/
theorem foldl_handleDetails_player (evs : List AnswerData) (acc : List AnswerData) :
    evs.foldl (fun acc e => handleAnswerSubmittedDetails Role.player e acc) acc = acc := by
  induction evs generalizing acc with
  | nil => rfl
  | cons e t ih => rw [List.foldl_cons, handleDetails_player]; exact ih acc

/-- One handler step preserves distinctness of the answer ids in the
pending list. -/
theorem handleDetails_pairwise (role : Role) (e : AnswerData) (prev : List AnswerData)
    (h : prev.Pairwise (fun a b => a.answer_id ≠ b.answer_id)) :
    (handleAnswerSubmittedDetails role e prev).Pairwise
      (fun a b => a.answer_id ≠ b.answer_id) := by
  unfold handleAnswerSubmittedDetails
  split
  · split
    · exact h
    · rename_i hany
      rw [List.pairwise_append]
      refine ⟨h, List.pairwise_singleton _ _, ?_⟩
      intro a ha b hb
      simp only [List.mem_singleton] at hb
      subst hb
      intro hc
      exact hany (List.any_eq_true.mpr ⟨a, ha, by simp [hc]⟩)
  · exact h

/-- Folding a whole event stream preserves distinctness of answer ids. -/
theorem foldl_handleDetails_pairwise (role : Role) (evs : List AnswerData) :
    ∀ acc, acc.Pairwise (fun a b => a.answer_id ≠ b.answer_id) →
      (evs.foldl (fun acc e => handleAnswerSubmittedDetails role e acc) acc).Pairwise
        (fun a b => a.answer_id ≠ b.answer_id) := by
  induction evs with
  | nil => intro acc h; exact h
  | cons e t ih =>
    intro acc h
    rw [List.foldl_cons]
    exact ih _ (handleDetails_pairwise role e acc h)

/-- Claim C10: the pending-answers list built from any stream of
answer_submitted_details events never contains two entries with the same
answer id, and on a client whose role is not facilitator it stays empty. -/
theorem pending_answers_invariant (role : Role) (events : List AnswerData) :
    (processDetailsEvents role events).Pairwise (fun a b => a.answer_id ≠ b.answer_id)
    ∧ (role = Role.player → processDetailsEvents role events = []) := by
  constructor
  · exact foldl_handleDetails_pairwise role events [] List.Pairwise.nil
  · intro hr
    subst hr
    exact foldl_handleDetails_player events []

/-- Witness for C10 on a player client receiving two events with the same
answer id. -/
theorem pending_answers_invariant_witness :
    (processDetailsEvents Role.player [⟨1, "A", "x"⟩, ⟨1, "B", "y"⟩]).Pairwise
      (fun a b => a.answer_id ≠ b.answer_id)
    ∧ processDetailsEvents Role.player [⟨1, "A", "x"⟩, ⟨1, "B", "y"⟩] = [] :=
  ⟨(pending_answers_invariant Role.player [⟨1, "A", "x"⟩, ⟨1, "B", "y"⟩]).1,
   (pending_answers_invariant Role.player [⟨1, "A", "x"⟩, ⟨1, "B", "y"⟩]).2 rfl⟩

/-- Closed form of the answer timer run when the stopped prop is set from
the start: nothing ever changes and onTimeUp never fires. -/
theorem timerRun_stopped (d n : Nat) :
    timerRun d true n = ⟨d, true, false, 0⟩ := by
  induction n with
  | zero => rfl
  | succ n ih =>
    unfold timerRun at ih ⊢
    rw [Function.iterate_succ_apply', ih]
    rfl

/-- Closed form of the answer timer run when not stopped: the countdown
decreases each second with no firing, and from the moment it reaches zero
exactly one firing has happened and the state is frozen. -/
theorem timerRun_active (d n : Nat) :
    timerRun d false n =
      if n < d then ⟨d - n, false, true, 0⟩ else ⟨0, true, false, 1⟩ := by
  induction n with
  | zero =>
    unfold timerRun
    rw [Function.iterate_zero_apply]
    by_cases hd : 0 < d
    · rw [if_pos hd]
      unfold runTimerEffect
      simp [show ¬ d = 0 by omega]
    · rw [if_neg hd]
      have h0 : d = 0 := by omega
      subst h0
      rfl
  | succ n ih =>
    unfold timerRun at ih ⊢
    rw [Function.iterate_succ_apply', ih]
    by_cases h2 : n + 1 < d
    · rw [if_pos h2, if_pos (show n < d by omega)]
      unfold answerTimerTick runTimerEffect
      simp [show ¬ d - n ≤ 1 by omega, show ¬ d - n - 1 = 0 by omega,
        AnswerTimerState.mk.injEq]
      omega
    · rw [if_neg h2]
      by_cases h1 : n < d
      · rw [if_pos h1]
        have hd : d = n + 1 := by omega
        subst hd
        unfold answerTimerTick runTimerEffect
        simp
      · rw [if_neg h1]
        rfl

/-- Claim C8: when the countdown of an answer timer that is not stopped
reaches zero, onTimeUp fires exactly once, never zero times and never
twice: after the duration has elapsed the fire count is one and stays one
forever; a timer whose stopped flag is set never fires onTimeUp at all. -/
theorem answer_timer_fires_once (d : Nat) :
    (∀ n, (timerRun d true n).fires = 0)
    ∧ (∀ n, (timerRun d false n).fires = if n < d then 0 else 1) := by
  constructor
  · intro n
    rw [timerRun_stopped]
  · intro n
    rw [timerRun_active]
    split <;> rfl

/-- Witness for C8 at duration 3 after 5 elapsed seconds: a stopped timer
has fired zero times and a running one exactly once. -/
theorem answer_timer_fires_once_witness :
    (timerRun 3 true 5).fires = 0
    ∧ (timerRun 3 false 5).fires = if 5 < 3 then 0 else 1 :=
  ⟨(answer_timer_fires_once 3).1 5, (answer_timer_fires_once 3).2 5⟩

/-- Closed form of the dice-roll countdown: after n interval firings the
displayed value is 30 minus n (stopping at 0), the interval stays armed for
the first 29 firings, and the skip modal flag is raised exactly at expiry
and exactly for a facilitator client. -/
theorem diceTimer_closed (role : Role) (d0 : Option Nat) (a0 m0 : Bool) (n : Nat) :
    (diceTimerTick role)^[n] (startDiceTimer ⟨d0, a0, m0⟩) =
      ⟨some (30 - n), decide (n < 30),
        m0 || (decide (30 ≤ n) && (role == Role.facilitator))⟩ := by
  induction n with
  | zero => simp [startDiceTimer]
  | succ n ih =>
    rw [Function.iterate_succ_apply', ih]
    unfold diceTimerTick
    by_cases h : n < 30
    · by_cases h2 : n + 1 < 30
      · simp [show (decide (n < 30)) = true by simp [h],
          show ¬ 30 - n ≤ 1 by omega, show ¬ 30 ≤ n by omega,
          show ¬ 30 ≤ n + 1 by omega, h2, DiceTimerState.mk.injEq]
        omega
      · have hn : n = 29 := by omega
        subst hn
        simp [DiceTimerState.mk.injEq]
    · have hd : (decide (n < 30)) = false := decide_eq_false h
      simp [hd, DiceTimerState.mk.injEq, show 30 ≤ n by omega,
        show 30 ≤ n + 1 by omega, show ¬ n + 1 < 30 by omega]

/-- Claim C7: when a turn is waiting for a dice roll the countdown starts
at exactly 30 and decreases by one at each one-second firing; if it reaches
0 before a roll arrives the skip prompt is raised for a facilitator client
and never for a player client. -/
theorem dice_timer_countdown (role : Role) (s0 : DiceTimerState)
    (hm : s0.showDiceSkipModal = false) :
    (startDiceTimer s0).diceTimer = some 30
    ∧ (∀ n, n ≤ 30 →
        ((diceTimerTick role)^[n] (startDiceTimer s0)).diceTimer = some (30 - n))
    ∧ (∀ n, n < 30 →
        ((diceTimerTick role)^[n] (startDiceTimer s0)).showDiceSkipModal = false)
    ∧ (role = Role.player →
        ∀ n, ((diceTimerTick role)^[n] (startDiceTimer s0)).showDiceSkipModal = false)
    ∧ (role = Role.facilitator →
        ∀ n, 30 ≤ n →
          ((diceTimerTick role)^[n] (startDiceTimer s0)).showDiceSkipModal = true) := by
  obtain ⟨d0, a0, m0⟩ := s0
  have hm0 : m0 = false := hm
  subst hm0
  refine ⟨rfl, ?_, ?_, ?_, ?_⟩
  · intro n hn
    rw [diceTimer_closed]
  · intro n hn
    rw [diceTimer_closed]
    simp [show ¬ 30 ≤ n by omega]
  · intro hr n
    subst hr
    rw [diceTimer_closed]
    simp
  · intro hr n hn
    subst hr
    rw [diceTimer_closed]
    simp [hn]

/-- Witness for C7: for a facilitator client the countdown starts at 30,
reads 0 after 30 firings, and the skip prompt is then raised. -/
theorem dice_timer_countdown_witness :
    (startDiceTimer ⟨none, false, false⟩).diceTimer = some 30
    ∧ ((diceTimerTick Role.facilitator)^[30] (startDiceTimer ⟨none, false, false⟩)).diceTimer
        = some 0
    ∧ ((diceTimerTick Role.facilitator)^[30]
        (startDiceTimer ⟨none, false, false⟩)).showDiceSkipModal = true := by
  obtain h := dice_timer_countdown Role.facilitator ⟨none, false, false⟩ rfl
  exact ⟨h.1, h.2.1 30 (by omega), h.2.2.2.2 rfl 30 (by omega)⟩

/-- Map access at an in-range index through getD with the default
element. -/
theorem getD_map_of_lt (f : Team → Team) (l : List Team) (i : Nat) (h : i < l.length) :
    (l.map f).getD i default = f (l.getD i default) := by
  rw [List.getD_eq_getElem?_getD, List.getD_eq_getElem?_getD, List.getElem?_map,
    List.getElem?_eq_getElem h]
  rfl

/-- Claim C9: applying a leaderboard_update event preserves the length of
the team list and, at every position, the id and name of the team; a team
whose id does not occur in the update list is returned exactly unchanged,
and a team whose id is found in the list takes exactly the score and
position of the entry found for it. -/
theorem leaderboard_update_frame (lb : List LBEntry) (teams : List Team) :
    (applyLeaderboardUpdate lb teams).length = teams.length
    ∧ ∀ i, i < teams.length →
        ((applyLeaderboardUpdate lb teams).getD i default).id = (teams.getD i default).id
        ∧ ((applyLeaderboardUpdate lb teams).getD i default).team_name
            = (teams.getD i default).team_name
        ∧ ((teams.getD i default).id ∉ lb.map LBEntry.id →
            (applyLeaderboardUpdate lb teams).getD i default = teams.getD i default)
        ∧ (∀ e, lb.find? (fun l => l.id == (teams.getD i default).id) = some e →
            ((applyLeaderboardUpdate lb teams).getD i default).score = e.score
            ∧ ((applyLeaderboardUpdate lb teams).getD i default).position = e.position) := by
  unfold applyLeaderboardUpdate
  by_cases hemp : lb.isEmpty
  · have hnil : lb = [] := List.isEmpty_iff.mp hemp
    subst hnil
    simp
  · simp only [hemp, Bool.false_eq_true, if_false]
    refine ⟨by simp, ?_⟩
    intro i hi
    rw [getD_map_of_lt _ _ _ hi]
    cases hfind : lb.find? (fun l => l.id == (teams.getD i default).id) with
    | none =>
      simp [hfind]
    | some u =>
      simp only [hfind]
      refine ⟨trivial, trivial, ?_, ?_⟩
      · intro hnot
        exfalso
        apply hnot
        have hu : u.id = (teams.getD i default).id := by
          have := List.find?_some hfind
          simpa using this
        exact hu ▸ List.mem_map_of_mem LBEntry.id (List.mem_of_find?_eq_some hfind)
      · intro e he
        cases he
        exact ⟨rfl, rfl⟩

/-- Witness for C9: one update entry for team 2 changes only that team's
score and position and leaves team 1 exactly unchanged. -/
theorem leaderboard_update_frame_witness :
    (applyLeaderboardUpdate [⟨2, 50, 1⟩] [⟨1, "Red", 3, 2⟩, ⟨2, "Blue", 4, 1⟩]).length = 2
    ∧ (applyLeaderboardUpdate [⟨2, 50, 1⟩] [⟨1, "Red", 3, 2⟩, ⟨2, "Blue", 4, 1⟩]).getD 0 default
        = ([⟨1, "Red", 3, 2⟩, ⟨2, "Blue", 4, 1⟩] : List Team).getD 0 default
    ∧ ((applyLeaderboardUpdate [⟨2, 50, 1⟩] [⟨1, "Red", 3, 2⟩, ⟨2, "Blue", 4, 1⟩]).getD 1
        default).score = 50 := by
  obtain h := leaderboard_update_frame [⟨2, 50, 1⟩] [⟨1, "Red", 3, 2⟩, ⟨2, "Blue", 4, 1⟩]
  exact ⟨h.1, ((h.2 0 (by norm_num)).2.2.1 (by decide)),
    ((h.2 1 (by norm_num)).2.2.2 ⟨2, 50, 1⟩ (by decide)).1⟩

/-- Score access at the head of a list. -/
theorem scoreAt_cons_zero (t : Team) (l : List Team) : scoreAt (t :: l) 0 = t.score := rfl

/-- Score access shifts over a cons cell. -/
theorem scoreAt_cons_succ (t : Team) (l : List Team) (i : Nat) :
    scoreAt (t :: l) (i + 1) = scoreAt l i := rfl

/-- In-range score access reads the element at that index. -/
theorem scoreAt_eq_get (l : List Team) (i : Nat) (h : i < l.length) :
    scoreAt l i = (l.get ⟨i, h⟩).score := by
  simp [scoreAt, List.get?_eq_getElem?, List.getElem?_eq_getElem h]

/-- When every score in a list is bounded by a score that does not exceed
v, the list holds nothing above v. -/
theorem countP_gt_eq_zero (t : List Team) (a : Team) (v : Nat)
    (ha : ∀ b ∈ t, b.score ≤ a.score) (hav : ¬ v < a.score) :
    t.countP (fun u => decide (v < u.score)) = 0 := by
  rw [List.countP_eq_zero]
  intro b hb
  have hba := ha b hb
  simp
  omega

/-- In a list sorted by descending score, the positions holding a score
strictly above v are exactly the first countP-many positions. -/
theorem desc_gt_iff_lt_countP (v : Nat) :
    ∀ (l : List Team), l.Pairwise (fun a b => b.score ≤ a.score) →
      ∀ i, i < l.length →
        (v < scoreAt l i ↔ i < l.countP (fun t => decide (v < t.score))) := by
  intro l
  induction l with
  | nil =>
    intro _ i hi
    simp at hi
  | cons a t ih =>
    intro hl i hi
    rw [List.pairwise_cons] at hl
    obtain ⟨ha, ht⟩ := hl
    rw [List.countP_cons]
    cases i with
    | zero =>
      rw [scoreAt_cons_zero]
      by_cases hva : v < a.score
      · simp [hva]
      · have hz := countP_gt_eq_zero t a v ha hva
        simp [hva, hz]
    | succ j =>
      have hj : j < t.length := by simpa using hi
      rw [scoreAt_cons_succ]
      by_cases hva : v < a.score
      · rw [if_pos (by simpa using hva)]
        rw [ih ht j hj]
        omega
      · have hz := countP_gt_eq_zero t a v ha hva
        have hnb : ¬ v < scoreAt t j := by
          have hmem : t.get ⟨j, hj⟩ ∈ t := List.get_mem t j hj
          have hba := ha _ hmem
          rw [scoreAt_eq_get t j hj]
          omega
        simp [hva, hz, hnb]

/-- In a list sorted by descending score the score at a later index never
exceeds the score at an earlier one. -/
theorem desc_scoreAt_mono (l : List Team)
    (hl : l.Pairwise (fun a b => b.score ≤ a.score)) (i j : Nat)
    (hij : i ≤ j) (hj : j < l.length) : scoreAt l j ≤ scoreAt l i := by
  rcases Nat.eq_or_lt_of_le hij with heq | hlt
  · subst heq
    exact le_refl _
  · have hi : i < l.length := lt_trans hlt hj
    rw [scoreAt_eq_get l i hi, scoreAt_eq_get l j hj]
    exact List.pairwise_iff_get.mp hl ⟨i, hi⟩ ⟨j, hj⟩ (by simpa using hlt)

/-- Find over an initial range returns the least index satisfying the
predicate, mirroring the early-return for loop of getTeamRank. -/
theorem range_find?_eq_some (p : Nat → Bool) (n k : Nat) (hk : k < n) (hpk : p k = true)
    (hmin : ∀ i, i < k → p i = false) : (List.range n).find? p = some k := by
  induction n with
  | zero => omega
  | succ n ih =>
    rw [List.range_succ, List.find?_append]
    by_cases hkn : k < n
    · rw [ih hkn]
      rfl
    · have hkeq : k = n := by omega
      subst hkeq
      have hnone : (List.range k).find? p = none := by
        rw [List.find?_eq_none]
        intro x hx
        rw [hmin x (List.mem_range.mp hx)]
        simp
      rw [hnone]
      simp [List.find?_cons, hpk]

/-- Rank characterization: on a descending-sorted team list, getTeamRank at
an in-range index equals one plus the number of teams with a strictly
higher score. -/
theorem getTeamRank_eq_countP (l : List Team)
    (hl : l.Pairwise (fun a b => b.score ≤ a.score)) (idx : Nat) (hidx : idx < l.length) :
    getTeamRank l idx = 1 + l.countP (fun t => decide (scoreAt l idx < t.score)) := by
  have hP1 := desc_gt_iff_lt_countP (scoreAt l idx) l hl
  set k := l.countP (fun t => decide (scoreAt l idx < t.score)) with hkdef
  have hk_le : k ≤ idx := by
    by_contra hcon
    push_neg at hcon
    have h2 := (hP1 idx hidx).mpr hcon
    omega
  have hk_len : k < l.length := lt_of_le_of_lt hk_le hidx
  have hscore_k : scoreAt l k = scoreAt l idx := by
    have h1 : ¬ scoreAt l idx < scoreAt l k := by
      intro hlt
      have h3 := (hP1 k hk_len).mp hlt
      omega
    have h2 : scoreAt l idx ≤ scoreAt l k := desc_scoreAt_mono l hl k idx hk_le hidx
    omega
  have hfirst : ∀ i, i < k → scoreAt l i ≠ scoreAt l idx := by
    intro i hik
    have hil : i < l.length := lt_trans hik hk_len
    have h3 := (hP1 i hil).mpr hik
    omega
  unfold getTeamRank
  by_cases h0 : idx = 0
  · subst h0
    rw [if_pos rfl]
    omega
  · rw [if_neg h0]
    by_cases heq : scoreAt l idx = scoreAt l (idx - 1)
    · rw [if_pos heq]
      have hk_lt_idx : k < idx := by
        rcases Nat.lt_or_ge k idx with h | h
        · exact h
        · exfalso
          have h4 : idx - 1 < k := by omega
          exact hfirst (idx - 1) h4 heq.symm
      have hfind : (List.range idx).find? (fun i => scoreAt l i == scoreAt l idx) = some k := by
        apply range_find?_eq_some _ idx k hk_lt_idx
        · simp [hscore_k]
        · intro i hik
          have h5 := hfirst i hik
          simp [h5]
      rw [hfind]
      show k + 1 = 1 + k
      omega
    · rw [if_neg heq]
      have hk_eq : k = idx := by
        rcases Nat.lt_or_ge k idx with h | h
        · exfalso
          have hi1 : idx - 1 < l.length := by omega
          have hge : scoreAt l idx ≤ scoreAt l (idx - 1) :=
            desc_scoreAt_mono l hl (idx - 1) idx (by omega) hidx
          have hle2 : scoreAt l (idx - 1) ≤ scoreAt l idx := by
            by_contra hc
            push_neg at hc
            have h6 := (hP1 (idx - 1) hi1).mp hc
            omega
          exact heq (by omega)
        · omega
      show idx + 1 = 1 + k
      omega

/-- Sorting by descending score is a permutation of the input. -/
theorem sortTeamsDesc_perm (ts : List Team) : (sortTeamsDesc ts).Perm ts :=
  List.mergeSort_perm ts _

/-- Sorting by descending score yields a list that is pairwise descending
in score. -/
theorem sortTeamsDesc_pairwise (ts : List Team) :
    (sortTeamsDesc ts).Pairwise (fun a b => b.score ≤ a.score) := by
  have h := @List.sorted_mergeSort Team (fun a b => decide (b.score ≤ a.score))
    (fun a b c hab hbc => by
      simp at hab hbc ⊢
      omega)
    (fun a b => by
      simp [Bool.or_eq_true]
      omega)
    ts
  exact h.imp (fun hab => by simpa using hab)

/-- Claim C4: the leaderboard is the team list sorted by score descending;
on it, every rank equals one plus the number of teams with a strictly
higher score, and for any two positions i before j the rank at i is at most
the rank at j, with equality exactly when the two scores are equal. -/
theorem leaderboard_rank_spec (ts : List Team) :
    (sortTeamsDesc ts).Perm ts
    ∧ (sortTeamsDesc ts).Pairwise (fun a b => b.score ≤ a.score)
    ∧ (∀ idx, idx < (sortTeamsDesc ts).length →
        getTeamRank (sortTeamsDesc ts) idx
          = 1 + ts.countP (fun t => decide (scoreAt (sortTeamsDesc ts) idx < t.score)))
    ∧ (∀ i j, i < j → j < (sortTeamsDesc ts).length →
        getTeamRank (sortTeamsDesc ts) i ≤ getTeamRank (sortTeamsDesc ts) j
        ∧ (getTeamRank (sortTeamsDesc ts) i = getTeamRank (sortTeamsDesc ts) j
            ↔ scoreAt (sortTeamsDesc ts) i = scoreAt (sortTeamsDesc ts) j)) := by
  have hperm := sortTeamsDesc_perm ts
  have hpair := sortTeamsDesc_pairwise ts
  refine ⟨hperm, hpair, ?_, ?_⟩
  · intro idx hidx
    rw [getTeamRank_eq_countP _ hpair idx hidx, List.Perm.countP_eq _ hperm]
  · intro i j hij hj
    have hi : i < (sortTeamsDesc ts).length := lt_trans hij hj
    have hri := getTeamRank_eq_countP _ hpair i hi
    have hrj := getTeamRank_eq_countP _ hpair j hj
    have hsji : scoreAt (sortTeamsDesc ts) j ≤ scoreAt (sortTeamsDesc ts) i :=
      desc_scoreAt_mono _ hpair i j (le_of_lt hij) hj
    have hmono : (sortTeamsDesc ts).countP
          (fun t => decide (scoreAt (sortTeamsDesc ts) i < t.score))
        ≤ (sortTeamsDesc ts).countP
          (fun t => decide (scoreAt (sortTeamsDesc ts) j < t.score)) := by
      apply List.countP_mono_left
      intro x hx h
      simp at h ⊢
      omega
    refine ⟨by omega, ?_, ?_⟩
    · intro hreq
      by_contra hneq
      have hstrict : scoreAt (sortTeamsDesc ts) j < scoreAt (sortTeamsDesc ts) i := by
        omega
      have hki : (sortTeamsDesc ts).countP
          (fun t => decide (scoreAt (sortTeamsDesc ts) i < t.score)) ≤ i := by
        by_contra hc
        push_neg at hc
        have h7 := (desc_gt_iff_lt_countP (scoreAt (sortTeamsDesc ts) i) _ hpair i hi).mpr hc
        omega
      have hkj := (desc_gt_iff_lt_countP (scoreAt (sortTeamsDesc ts) j) _ hpair i hi).mp hstrict
      omega
    · intro hseq
      rw [hri, hrj, hseq]

/-- Witness for C4 on three teams with a tie: sorted scores 5, 5, 2 give
ranks 1, 1, 3. -/
theorem leaderboard_rank_spec_witness :
    getTeamRank (sortTeamsDesc [⟨1, "A", 5, 0⟩, ⟨2, "B", 5, 0⟩, ⟨3, "C", 2, 0⟩]) 1
      = 1 + ([⟨1, "A", 5, 0⟩, ⟨2, "B", 5, 0⟩, ⟨3, "C", 2, 0⟩] : List Team).countP
          (fun t => decide (scoreAt
            (sortTeamsDesc [⟨1, "A", 5, 0⟩, ⟨2, "B", 5, 0⟩, ⟨3, "C", 2, 0⟩]) 1 < t.score))
    ∧ getTeamRank (sortTeamsDesc [⟨1, "A", 5, 0⟩, ⟨2, "B", 5, 0⟩, ⟨3, "C", 2, 0⟩]) 0
      ≤ getTeamRank (sortTeamsDesc [⟨1, "A", 5, 0⟩, ⟨2, "B", 5, 0⟩, ⟨3, "C", 2, 0⟩]) 2 := by
  obtain h := leaderboard_rank_spec [⟨1, "A", 5, 0⟩, ⟨2, "B", 5, 0⟩, ⟨3, "C", 2, 0⟩]
  refine ⟨h.2.2.1 1 ?_, (h.2.2.2 0 2 (by omega) ?_).1⟩
  · rw [List.Perm.length_eq (sortTeamsDesc_perm _)]
    norm_num
  · rw [List.Perm.length_eq (sortTeamsDesc_perm _)]
    norm_num

/-- Every score in a team list is bounded by the maximum score. -/
theorem maxScoreOf_ge : ∀ (ts : List Team), ∀ u ∈ ts, u.score ≤ maxScoreOf ts := by
  intro ts
  induction ts with
  | nil =>
    intro u hu
    simp at hu
  | cons a t ih =>
    intro u hu
    rcases List.mem_cons.mp hu with h | h
    · subst h
      unfold maxScoreOf
      rw [List.map_cons, List.foldr_cons]
      exact le_max_left _ _
    · unfold maxScoreOf
      rw [List.map_cons, List.foldr_cons]
      exact le_trans (ih u h) (le_max_right _ _)

/-- The maximum score is zero or is attained by some team in the list. -/
theorem maxScoreOf_cases : ∀ (ts : List Team),
    maxScoreOf ts = 0 ∨ ∃ u ∈ ts, maxScoreOf ts = u.score := by
  intro ts
  induction ts with
  | nil =>
    left
    rfl
  | cons a t ih =>
    have hstep : maxScoreOf (a :: t) = max a.score (maxScoreOf t) := by
      unfold maxScoreOf
      rw [List.map_cons, List.foldr_cons]
    rcases Nat.le_total a.score (maxScoreOf t) with h | h
    · rw [hstep, max_eq_right h]
      rcases ih with h0 | ⟨u, hu, he⟩
      · left
        exact h0
      · right
        exact ⟨u, List.mem_cons_of_mem a hu, he⟩
    · rw [hstep, max_eq_left h]
      right
      exact ⟨a, List.mem_cons_self a t, rfl⟩

/-- Claim C5: for every non-empty team list, the winners list computed when
the facilitator finishes the game contains exactly the teams whose score
equals the maximum score over all teams; in particular all teams tied at
the top score are winners. -/
theorem finish_game_winners (ts : List Team) (hne : ts ≠ []) (t : Team) :
    t ∈ handleFinishGameWinners ts ↔ t ∈ ts ∧ t.score = maxScoreOf ts := by
  have hperm := sortTeamsDesc_perm ts
  have hpair := sortTeamsDesc_pairwise ts
  have hsne : sortTeamsDesc ts ≠ [] := by
    intro hc
    apply hne
    have hp := hperm
    rw [hc] at hp
    exact (hp.symm.eq_nil)
  obtain ⟨h, rest, hcons⟩ : ∃ h rest, sortTeamsDesc ts = h :: rest := by
    cases hs : sortTeamsDesc ts with
    | nil => exact absurd hs hsne
    | cons x r => exact ⟨x, r, rfl⟩
  have hhs : ((sortTeamsDesc ts).head?.map Team.score).getD 0 = h.score := by
    rw [hcons]
    rfl
  have hmax : h.score = maxScoreOf ts := by
    have hge : ∀ u ∈ ts, u.score ≤ h.score := by
      intro u hu
      have hu2 : u ∈ sortTeamsDesc ts := hperm.mem_iff.mpr hu
      rw [hcons] at hu2
      rcases List.mem_cons.mp hu2 with h1 | h1
      · exact le_of_eq (by rw [h1])
      · have hp := hpair
        rw [hcons, List.pairwise_cons] at hp
        exact hp.1 u h1
    have hmem : h ∈ ts := hperm.mem_iff.mp (by
      rw [hcons]
      exact List.mem_cons_self _ _)
    have hle : h.score ≤ maxScoreOf ts := maxScoreOf_ge ts h hmem
    have hge2 : maxScoreOf ts ≤ h.score := by
      rcases maxScoreOf_cases ts with h0 | ⟨u, hu, he⟩
      · omega
      · rw [he]
        exact hge u hu
    omega
  have hkey : handleFinishGameWinners ts
      = (sortTeamsDesc ts).filter (fun u => u.score == h.score) := by
    simp only [handleFinishGameWinners, hhs]
  rw [hkey]
  simp only [List.mem_filter, beq_iff_eq, hperm.mem_iff, hmax]

/-- Witness for C5: two teams tied at the top score 10 are both listed as
winners. -/
theorem finish_game_winners_witness :
    (⟨2, "Blue", 10, 0⟩ : Team)
      ∈ handleFinishGameWinners [⟨1, "Red", 10, 0⟩, ⟨2, "Blue", 10, 0⟩]
    ∧ (⟨1, "Red", 10, 0⟩ : Team)
      ∈ handleFinishGameWinners [⟨1, "Red", 10, 0⟩, ⟨2, "Blue", 10, 0⟩] :=
  ⟨(finish_game_winners [⟨1, "Red", 10, 0⟩, ⟨2, "Blue", 10, 0⟩] (by simp)
      ⟨2, "Blue", 10, 0⟩).mpr
      ⟨List.mem_cons_of_mem _ (List.mem_cons_self _ _), rfl⟩,
   (finish_game_winners [⟨1, "Red", 10, 0⟩, ⟨2, "Blue", 10, 0⟩] (by simp)
      ⟨1, "Red", 10, 0⟩).mpr
      ⟨List.mem_cons_self _ _, rfl⟩⟩

end SteppingStones
